import Mathlib

/-!
Shallow embedding of the price-tracking and alert-evaluation core of
`telegram_WC_Bot.py` (class `WorldcoinTelegramBot`).

Modelling conventions:
* Python floats are modelled as rationals (`ℚ`); user ids as integers (`ℤ`).
* Python's `int(x)` (truncation toward zero) is `pyInt`.
* The registry `self.tracking_users` (a Python `dict`) is an association
  list with insertion order and unique keys; `dictLookup`, `dictInsert`
  and `dictErase` model `d[k]` / `k in d`, `d[k] = v`, and `del d[k]`.
* `get_worldcoin_price` is an external effect; each operation that calls it
  takes the fetch outcome as an explicit `Option ℚ` argument (`none` models
  the `None` returned on any fetch failure).
* Outbound messages are abstracted to the `Msg` datatype (the exact
  formatted text carries no further information than the payload fields).
* An operation that can raise an uncaught Python exception returns
  `Option`, with `none` modelling the raised exception.
-/

set_option autoImplicit false

namespace WCBot

/-- Python `int(x)` on a rational: truncation toward zero
(floor for nonnegative arguments, ceiling for negative ones). -/
def pyInt (q : ℚ) : ℤ :=
  if 0 ≤ q then ⌊q⌋ else ⌈q⌉

/-- One entry of `user_data['alerts']`: `{'target': float, 'triggered': bool}`. -/
structure Alert where
  target : ℚ
  triggered : Bool
  deriving DecidableEq, Repr

/-- One value of `self.tracking_users`: `{'tracking', 'last_notification_price', 'alerts'}`.
`last_notification_price` is kept as a rational because Python stores whatever
number was assigned (an `int` on every reachable path). -/
structure UserState where
  tracking : Bool
  last_notification_price : ℚ
  alerts : List Alert
  deriving DecidableEq, Repr

/-- The registry `self.tracking_users`: a Python dict from user id to state,
modelled as an insertion-ordered association list with unique keys. -/
def Registry : Type := List (ℤ × UserState)

instance : DecidableEq Registry := by
  unfold Registry; infer_instance

/-- Dict lookup `m[k]` / membership `k in m`: first entry with the key. -/
def dictLookup : List (ℤ × UserState) → ℤ → Option UserState
  | [], _ => none
  | (k0, v0) :: rest, k => if k = k0 then some v0 else dictLookup rest k

/-- Dict assignment `m[k] = v`: replaces the value in place if the key is
present, otherwise appends the new entry at the end (insertion order). -/
def dictInsert : List (ℤ × UserState) → ℤ → UserState → List (ℤ × UserState)
  | [], k, v => [(k, v)]
  | (k0, v0) :: rest, k, v =>
    if k = k0 then (k, v) :: rest else (k0, v0) :: dictInsert rest k v

/-- Dict deletion `del m[k]`: removes the entry with the key (the first one;
a Python dict has at most one). -/
def dictErase : List (ℤ × UserState) → ℤ → List (ℤ × UserState)
  | [], _ => []
  | (k0, v0) :: rest, k =>
    if k = k0 then rest else (k0, v0) :: dictErase rest k

/-- A Python dict never holds two entries with the same key. -/
def keysNodup (m : List (ℤ × UserState)) : Prop :=
  (m.map Prod.fst).Nodup

/-- Outbound notification messages, abstracted to their payload. -/
inductive Msg where
  /-- The threshold-increase alert of `continuous_price_check` (line 199). -/
  | increase (current : ℚ)
  /-- The target-reached alert of `check_price_alerts` (line 113). -/
  | targetReached (current target : ℚ)
  deriving DecidableEq, Repr

/-- Result labels of `get_price_trend`, abstracted from the returned strings. -/
inductive Trend where
  | insufficientData
  | strongUp
  | slightUp
  | strongDown
  | slightDown
  | stable
  deriving DecidableEq, Repr

/-- `get_price_trend` (lines 62-82): compares the newest retained sample
(`price_history[-1]`) with the oldest retained sample (`price_history[0]`). -/
def get_price_trend (price_history : List ℚ) : Trend :=
  if price_history.length < 2 then .insufficientData
  else
    let last_price := price_history.getLastD 0
    let prev_price := price_history.headD 0
    let change := (last_price - prev_price) / prev_price * 100
    if change > 5 then .strongUp
    else if change > 0 then .slightUp
    else if change < -5 then .strongDown
    else if change < 0 then .slightDown
    else .stable

/-- Python `max(list)` (left fold of binary max over a nonempty list). -/
def pyMax : List ℚ → ℚ
  | [] => 0
  | x :: xs => xs.foldl max x

/-- Python `min(list)` (left fold of binary min over a nonempty list). -/
def pyMin : List ℚ → ℚ
  | [] => 0
  | x :: xs => xs.foldl min x

/-- The payload of the statistics report of `get_price_stats`. -/
structure PriceStats where
  current : ℚ
  high : ℚ
  low : ℚ
  average : ℚ
  deriving DecidableEq, Repr

/-- `get_price_stats` (lines 121-139): `none` models the
"No price data available" branch on an empty history. -/
def get_price_stats (price_history : List ℚ) : Option PriceStats :=
  if price_history = [] then none
  else some
    { current := price_history.getLastD 0
      high := pyMax price_history
      low := pyMin price_history
      average := price_history.sum / price_history.length }

/-- `set_price_alert` (lines 84-98). `fetch` is the outcome of the
`get_worldcoin_price()` call made when the user has no record yet.
The result `none` models the uncaught `TypeError` that `int(None)`
raises when that fetch fails. -/
def set_price_alert (fetch : Option ℚ) (reg : Registry) (user_id : ℤ)
    (target_price : ℚ) : Option Registry :=
  let created : Option Registry :=
    if (dictLookup reg user_id).isSome then some reg
    else
      match fetch with
      | none => none
      | some p =>
        some (dictInsert reg user_id
          { tracking := true
            last_notification_price := ((pyInt p : ℤ) : ℚ)
            alerts := [] })
  match created with
  | none => none
  | some reg1 =>
    match dictLookup reg1 user_id with
    | none => none
    | some st =>
      some (dictInsert reg1 user_id
        { st with alerts := st.alerts ++ [{ target := target_price, triggered := false }] })

/-- The body of the alert loop of `check_price_alerts` (lines 110-117) for a
single alert: the message appended (if any) and the updated alert. -/
def alert_step (current_price : ℚ) (a : Alert) : Option Msg × Alert :=
  if a.triggered = false then
    if current_price ≥ a.target then
      (some (.targetReached current_price a.target), { a with triggered := true })
    else (none, a)
  else (none, a)

/-- The alert loop of `check_price_alerts` over the whole alert list,
collecting messages in iteration order. -/
def run_alerts (current_price : ℚ) : List Alert → List Msg × List Alert
  | [] => ([], [])
  | a :: rest =>
    let (m, a') := alert_step current_price a
    let (ms, rest') := run_alerts current_price rest
    (m.toList ++ ms, a' :: rest')

/-- `check_price_alerts` (lines 100-119): returns the messages and the
registry after the in-place mutation of the user's alert dicts. -/
def check_price_alerts (reg : Registry) (user_id : ℤ) (current_price : ℚ) :
    List Msg × Registry :=
  match dictLookup reg user_id with
  | none => ([], reg)
  | some user_data =>
    ((run_alerts current_price user_data.alerts).1,
      dictInsert reg user_id
        { user_data with alerts := (run_alerts current_price user_data.alerts).2 })

/-- An alert fires at a price when it is not yet triggered and the price has
reached its target (the guard of lines 111-112). -/
def alertFires (current_price : ℚ) (a : Alert) : Bool :=
  !a.triggered && decide (a.target ≤ current_price)

/-- The in-place mutation a firing alert receives (line 117); a non-firing
alert is left untouched. -/
def markTriggered (current_price : ℚ) (a : Alert) : Alert :=
  if alertFires current_price a then { a with triggered := true } else a

/-- `start_price_tracking` (lines 141-165). `fetch` is the outcome of the
`get_worldcoin_price()` call; `initial_price` is the optional parameter
(defaulting to `None`), combined with the fetched price via Python's
`initial_price or int(current_price)` (falsy means `None` or `0`). -/
def start_price_tracking (fetch : Option ℚ) (reg : Registry) (user_id : ℤ)
    (initial_price : Option ℚ) : Bool × Registry :=
  if (dictLookup reg user_id).isSome then (false, reg)
  else
    match fetch with
    | none => (false, reg)
    | some current_price =>
      let lnp : ℚ :=
        match initial_price with
        | some ip => if ip = 0 then ((pyInt current_price : ℤ) : ℚ) else ip
        | none => ((pyInt current_price : ℤ) : ℚ)
      (true, dictInsert reg user_id
        { tracking := true, last_notification_price := lnp, alerts := [] })

/-- `stop_price_tracking` (lines 167-177): sets the tracking flag to false,
then deletes the whole record, and returns whether the user was present. -/
def stop_price_tracking (reg : Registry) (user_id : ℤ) : Bool × Registry :=
  match dictLookup reg user_id with
  | some st =>
    (true, dictErase (dictInsert reg user_id { st with tracking := false }) user_id)
  | none => (false, reg)

/-- The price-history update of `continuous_price_check` (lines 189-191):
append the new sample at the tail, then pop the head if the length
exceeds 24. -/
def appendPrice (price_history : List ℚ) (p : ℚ) : List ℚ :=
  let h := price_history ++ [p]
  if h.length > 24 then h.drop 1 else h

/-- The history produced by the poll loop after the given successful
fetches, starting from the empty initial `self.price_history`. -/
def pollHistory (ps : List ℚ) : List ℚ :=
  ps.foldl appendPrice []

/-- The threshold-increase check of `continuous_price_check` (lines 195-207)
for one user: guarded by the tracking flag, compares `int(current_price)`
with `last_notification_price`, and on success emits one message and
updates `last_notification_price` to `int(current_price)`. -/
def threshold_check (current_price : ℚ) (st : UserState) : List Msg × UserState :=
  if st.tracking = true then
    if ((pyInt current_price : ℤ) : ℚ) > st.last_notification_price then
      ([Msg.increase current_price],
        { st with last_notification_price := ((pyInt current_price : ℤ) : ℚ) })
    else ([], st)
  else ([], st)

/-! ### Helper lemmas about the dict model -/

lemma dictLookup_dictInsert_self (m : List (ℤ × UserState)) (k : ℤ) (v : UserState) :
    dictLookup (dictInsert m k v) k = some v := by
  induction m with
  | nil => simp [dictInsert, dictLookup]
  | cons hd tl ih =>
    obtain ⟨k0, v0⟩ := hd
    by_cases hk : k = k0 <;> simp [dictInsert, dictLookup, hk, ih]

lemma dictLookup_dictInsert_ne (m : List (ℤ × UserState)) (k : ℤ) (v : UserState)
    (k' : ℤ) (h : k' ≠ k) : dictLookup (dictInsert m k v) k' = dictLookup m k' := by
  induction m with
  | nil => simp [dictInsert, dictLookup, h]
  | cons hd tl ih =>
    obtain ⟨k0, v0⟩ := hd
    by_cases hk : k = k0
    · subst hk; simp [dictInsert, dictLookup, h]
    · by_cases hk' : k' = k0 <;> simp [dictInsert, dictLookup, hk, hk', ih]

lemma dictInsert_dictInsert (m : List (ℤ × UserState)) (k : ℤ) (v1 v2 : UserState) :
    dictInsert (dictInsert m k v1) k v2 = dictInsert m k v2 := by
  induction m with
  | nil => simp [dictInsert]
  | cons hd tl ih =>
    obtain ⟨k0, v0⟩ := hd
    by_cases hk : k = k0 <;> simp [dictInsert, hk, ih]

lemma dictInsert_self_of_lookup (m : List (ℤ × UserState)) (k : ℤ) (v : UserState)
    (h : dictLookup m k = some v) : dictInsert m k v = m := by
  induction m with
  | nil => simp [dictLookup] at h
  | cons hd tl ih =>
    obtain ⟨k0, v0⟩ := hd
    by_cases hk : k = k0
    · subst hk
      simp [dictLookup] at h
      simp [dictInsert, h]
    · simp [dictLookup, hk] at h
      simp [dictInsert, hk, ih h]

lemma dictErase_dictInsert (m : List (ℤ × UserState)) (k : ℤ) (v : UserState) :
    dictErase (dictInsert m k v) k = dictErase m k := by
  induction m with
  | nil => simp [dictInsert, dictErase]
  | cons hd tl ih =>
    obtain ⟨k0, v0⟩ := hd
    by_cases hk : k = k0 <;> simp [dictInsert, dictErase, hk, ih]

lemma dictErase_of_lookup_none (m : List (ℤ × UserState)) (k : ℤ)
    (h : dictLookup m k = none) : dictErase m k = m := by
  induction m with
  | nil => simp [dictErase]
  | cons hd tl ih =>
    obtain ⟨k0, v0⟩ := hd
    by_cases hk : k = k0
    · simp [dictLookup, hk] at h
    · simp [dictLookup, hk] at h
      simp [dictErase, hk, ih h]

lemma dictLookup_dictErase_ne (m : List (ℤ × UserState)) (k k' : ℤ) (h : k' ≠ k) :
    dictLookup (dictErase m k) k' = dictLookup m k' := by
  induction m with
  | nil => simp [dictErase]
  | cons hd tl ih =>
    obtain ⟨k0, v0⟩ := hd
    by_cases hk : k = k0
    · subst hk; simp [dictErase, dictLookup, h]
    · by_cases hk' : k' = k0 <;> simp [dictErase, dictLookup, hk, hk', ih]

lemma dictLookup_eq_none_of_not_mem (m : List (ℤ × UserState)) (k : ℤ)
    (h : k ∉ m.map Prod.fst) : dictLookup m k = none := by
  induction m with
  | nil => simp [dictLookup]
  | cons hd tl ih =>
    obtain ⟨k0, v0⟩ := hd
    rw [List.map_cons, List.mem_cons] at h
    push_neg at h
    simp [dictLookup, h.1, ih h.2]

lemma dictLookup_dictErase_self (m : List (ℤ × UserState)) (k : ℤ)
    (hnd : keysNodup m) : dictLookup (dictErase m k) k = none := by
  induction m with
  | nil => simp [dictErase, dictLookup]
  | cons hd tl ih =>
    obtain ⟨k0, v0⟩ := hd
    have hnd0 := List.nodup_cons.mp hnd
    by_cases hk : k = k0
    · subst hk
      simp [dictErase]
      exact dictLookup_eq_none_of_not_mem tl k hnd0.1
    · simp [dictErase, dictLookup, hk, ih hnd0.2]

/-! ### Helper lemmas about the bounded price history -/

lemma appendPrice_eq (h : List ℚ) (p : ℚ) (hle : h.length ≤ 24) :
    appendPrice h p = (h ++ [p]).drop (h.length + 1 - 24) := by
  unfold appendPrice
  rcases Nat.lt_or_ge h.length 24 with hlt | hge
  · have h2 : h.length + 1 - 24 = 0 := by omega
    rw [h2, List.drop_zero]
    have h1 : ¬ (h ++ [p]).length > 24 := by
      simp only [List.length_append, List.length_singleton]; omega
    exact if_neg h1
  · have h24 : h.length = 24 := le_antisymm hle hge
    have h2 : h.length + 1 - 24 = 1 := by omega
    rw [h2]
    have h1 : (h ++ [p]).length > 24 := by
      simp only [List.length_append, List.length_singleton]; omega
    exact if_pos h1

lemma length_appendPrice (h : List ℚ) (p : ℚ) (hle : h.length ≤ 24) :
    (appendPrice h p).length = min (h.length + 1) 24 := by
  rw [appendPrice_eq h p hle]
  simp
  omega

lemma foldl_appendPrice (ps : List ℚ) : ∀ h : List ℚ, h.length ≤ 24 →
    List.foldl appendPrice h ps = (h ++ ps).drop (h.length + ps.length - 24) := by
  induction ps with
  | nil =>
    intro h hle
    simp only [List.foldl_nil, List.append_nil, List.length_nil, Nat.add_zero]
    rw [Nat.sub_eq_zero_of_le hle, List.drop_zero]
  | cons p ps ih =>
    intro h hle
    have hlen' : (appendPrice h p).length ≤ 24 := by
      rw [length_appendPrice h p hle]; omega
    rw [List.foldl_cons, ih (appendPrice h p) hlen', appendPrice_eq h p hle]
    have hd : h.length + 1 - 24 ≤ (h ++ [p]).length := by
      simp only [List.length_append, List.length_singleton]; omega
    have e1 : (List.drop (h.length + 1 - 24) (h ++ [p])).length
        = h.length + 1 - (h.length + 1 - 24) := by
      rw [List.length_drop]
      simp only [List.length_append, List.length_singleton]
    rw [e1, ← List.drop_append_of_le_length hd, List.drop_drop]
    have hassoc : (h ++ [p]) ++ ps = h ++ (p :: ps) := by simp
    rw [hassoc]
    congr 1
    simp only [List.length_cons]
    omega

/-! ### Helper lemmas about the alert loop -/

lemma check_price_alerts_of_lookup (reg : Registry) (user_id : ℤ) (cp : ℚ)
    (st : UserState) (h : dictLookup reg user_id = some st) :
    check_price_alerts reg user_id cp =
      ((run_alerts cp st.alerts).1,
        dictInsert reg user_id { st with alerts := (run_alerts cp st.alerts).2 }) := by
  unfold check_price_alerts
  rw [h]

lemma run_alerts_fst (cp : ℚ) (l : List Alert) :
    (run_alerts cp l).1 =
      (l.filter (alertFires cp)).map (fun a => Msg.targetReached cp a.target) := by
  induction l with
  | nil => simp [run_alerts]
  | cons a rest ih =>
    cases htr : a.triggered
    · by_cases h2 : a.target ≤ cp <;>
        simp [run_alerts, alert_step, alertFires, htr, h2, ih, ge_iff_le]
    · simp [run_alerts, alert_step, alertFires, htr, ih]

lemma run_alerts_snd (cp : ℚ) (l : List Alert) :
    (run_alerts cp l).2 = l.map (markTriggered cp) := by
  induction l with
  | nil => simp [run_alerts]
  | cons a rest ih =>
    cases htr : a.triggered
    · by_cases h2 : a.target ≤ cp <;>
        simp [run_alerts, alert_step, alertFires, markTriggered, htr, h2, ih, ge_iff_le]
    · simp [run_alerts, alert_step, alertFires, markTriggered, htr, ih]

lemma alertFires_markTriggered (cp : ℚ) (a : Alert) :
    alertFires cp (markTriggered cp a) = false := by
  cases htr : a.triggered
  · by_cases h2 : a.target ≤ cp <;> simp [alertFires, markTriggered, htr, h2]
  · simp [alertFires, markTriggered, htr]

lemma markTriggered_idem (cp : ℚ) (a : Alert) :
    markTriggered cp (markTriggered cp a) = markTriggered cp a := by
  rw [markTriggered, alertFires_markTriggered]
  simp

lemma markTriggered_target (cp : ℚ) (a : Alert) :
    (markTriggered cp a).target = a.target := by
  unfold markTriggered
  split <;> rfl

lemma markTriggered_mono (cp : ℚ) (a : Alert) (h : a.triggered = true) :
    markTriggered cp a = a := by
  simp [markTriggered, alertFires, h]

/-! ### Helper lemmas about Python max / min over a list -/

lemma foldl_max_le (l : List ℚ) : ∀ a : ℚ, a ≤ l.foldl max a ∧ ∀ x ∈ l, x ≤ l.foldl max a := by
  induction l with
  | nil => intro a; simp
  | cons x xs ih =>
    intro a
    have h := ih (max a x)
    refine ⟨le_trans (le_max_left a x) h.1, ?_⟩
    intro y hy
    rcases List.mem_cons.mp hy with rfl | hy'
    · exact le_trans (le_max_right a y) h.1
    · exact h.2 y hy'

lemma foldl_max_mem (l : List ℚ) : ∀ a : ℚ, l.foldl max a = a ∨ l.foldl max a ∈ l := by
  induction l with
  | nil => intro a; simp
  | cons x xs ih =>
    intro a
    rcases ih (max a x) with h | h
    · rcases max_choice a x with hm | hm
      · left; rw [List.foldl_cons, h, hm]
      · right; rw [List.foldl_cons, h, hm]; exact List.mem_cons_self x xs
    · right; exact List.mem_cons_of_mem x h

lemma foldl_min_le (l : List ℚ) : ∀ a : ℚ, l.foldl min a ≤ a ∧ ∀ x ∈ l, l.foldl min a ≤ x := by
  induction l with
  | nil => intro a; simp
  | cons x xs ih =>
    intro a
    have h := ih (min a x)
    refine ⟨le_trans h.1 (min_le_left a x), ?_⟩
    intro y hy
    rcases List.mem_cons.mp hy with rfl | hy'
    · exact le_trans h.1 (min_le_right a y)
    · exact h.2 y hy'

lemma foldl_min_mem (l : List ℚ) : ∀ a : ℚ, l.foldl min a = a ∨ l.foldl min a ∈ l := by
  induction l with
  | nil => intro a; simp
  | cons x xs ih =>
    intro a
    rcases ih (min a x) with h | h
    · rcases min_choice a x with hm | hm
      · left; rw [List.foldl_cons, h, hm]
      · right; rw [List.foldl_cons, h, hm]; exact List.mem_cons_self x xs
    · right; exact List.mem_cons_of_mem x h

lemma pyMax_spec (l : List ℚ) (h : l ≠ []) : pyMax l ∈ l ∧ ∀ x ∈ l, x ≤ pyMax l := by
  match l with
  | x :: xs =>
    constructor
    · rcases foldl_max_mem xs x with h1 | h1
      · rw [pyMax, h1]; exact List.mem_cons_self x xs
      · rw [pyMax]; exact List.mem_cons_of_mem x h1
    · intro y hy
      rcases List.mem_cons.mp hy with rfl | hy'
      · exact (foldl_max_le xs y).1
      · exact (foldl_max_le xs x).2 y hy'

lemma pyMin_spec (l : List ℚ) (h : l ≠ []) : pyMin l ∈ l ∧ ∀ x ∈ l, pyMin l ≤ x := by
  match l with
  | x :: xs =>
    constructor
    · rcases foldl_min_mem xs x with h1 | h1
      · rw [pyMin, h1]; exact List.mem_cons_self x xs
      · rw [pyMin]; exact List.mem_cons_of_mem x h1
    · intro y hy
      rcases List.mem_cons.mp hy with rfl | hy'
      · exact (foldl_min_le xs y).1
      · exact (foldl_min_le xs x).2 y hy'

lemma forall₂_map_self {R : Alert → Alert → Prop} (f : Alert → Alert) (l : List Alert)
    (h : ∀ a, R a (f a)) : List.Forall₂ R l (l.map f) := by
  induction l with
  | nil => simp
  | cons a t ih => exact List.Forall₂.cons (h a) ih

/-! ### Claim theorems -/

/-- C1: for a user with no record, `set_price_alert` was claimed to behave
exactly like `start_price_tracking`, in particular to fail without creating
a record and without crashing when the price fetch fails. The code instead
evaluates `int(None)` and raises an uncaught `TypeError` (modelled by the
`none` result): at the failing input (user 1 absent, failing fetch,
target 50) `set_price_alert` crashes while `start_price_tracking` returns
false and leaves the registry unchanged. On a successful fetch (price 10.5)
the two do agree: the record is created exactly as `start_price_tracking`
creates it, with the new alert appended untriggered. -/
theorem set_price_alert_crashes_on_fetch_failure :
    set_price_alert none [] 1 50 = none ∧
    start_price_tracking none [] 1 none = (false, []) ∧
    set_price_alert (some (21/2)) [] 1 50 =
      some [(1, { tracking := true, last_notification_price := 10,
                  alerts := [{ target := 50, triggered := false }] })] ∧
    start_price_tracking (some (21/2)) [] 1 none =
      (true, [(1, { tracking := true, last_notification_price := 10, alerts := [] })]) := by
  have hfl : (⌊(21/2 : ℚ)⌋ : ℤ) = 10 := by norm_num
  refine ⟨?_, ?_, ?_, ?_⟩
  · norm_num [set_price_alert, dictLookup]
  · norm_num [start_price_tracking, dictLookup]
  · norm_num [set_price_alert, dictLookup, dictInsert, pyInt, hfl]
  · norm_num [start_price_tracking, dictLookup, dictInsert, pyInt, hfl]

/-- C2: starting from the empty history, after any sequence of successful
appends performed by the poll loop the price history has length
min(n, 24) ≤ 24 and is exactly the suffix of the last min(n, 24) appended
samples in insertion order (the oldest samples having been evicted). -/
theorem pollHistory_bounded_fifo (ps : List ℚ) :
    (pollHistory ps).length = min ps.length 24 ∧
    pollHistory ps = ps.drop (ps.length - 24) := by
  have h := foldl_appendPrice ps [] (by simp)
  simp only [List.nil_append, List.length_nil, Nat.zero_add] at h
  rw [pollHistory]
  refine ⟨?_, h⟩
  rw [h, List.length_drop]
  omega

/-- C9: `check_price_alerts` for a user with no record returns the empty
message list and leaves the registry exactly unchanged. -/
theorem check_price_alerts_absent_user (reg : Registry) (user_id : ℤ)
    (current_price : ℚ) (h : dictLookup reg user_id = none) :
    check_price_alerts reg user_id current_price = ([], reg) := by
  unfold check_price_alerts
  rw [h]

/-- Witness for C9 at a concrete input: empty registry, user 1, price 5. -/
theorem check_price_alerts_absent_user_witness :
    check_price_alerts [] 1 5 = ([], []) :=
  check_price_alerts_absent_user [] 1 5 rfl

/-- C3: for a tracked user whose last-notified price is the integer p and a
nonnegative observed price x (`int` truncation coincides with floor there),
the threshold-increase check emits a notification iff ⌊x⌋ > p; when it
fires it emits exactly one message and updates the last-notified price to
⌊x⌋, otherwise it emits nothing and leaves the state unchanged. -/
theorem threshold_check_spec (st : UserState) (p : ℤ) (x : ℚ)
    (htr : st.tracking = true) (hp : st.last_notification_price = (p : ℚ))
    (hx : 0 ≤ x) :
    (p < ⌊x⌋ → threshold_check x st =
      ([Msg.increase x], { st with last_notification_price := ((⌊x⌋ : ℤ) : ℚ) })) ∧
    (¬ p < ⌊x⌋ → threshold_check x st = ([], st)) := by
  have hpy : pyInt x = ⌊x⌋ := if_pos hx
  unfold threshold_check
  rw [htr, hp, hpy]
  constructor
  · intro hlt
    rw [if_pos rfl, if_pos (by exact_mod_cast hlt)]
  · intro hge
    rw [if_pos rfl, if_neg (by exact_mod_cast hge)]

/-- Witness for C3, the scenario named in the claim: last-notified price 10
and a tick at 11.5 emit exactly one increase message and set the
last-notified price to 11; the next tick at 11.8 emits nothing. -/
theorem threshold_check_spec_witness :
    threshold_check (23/2) { tracking := true, last_notification_price := 10, alerts := [] } =
      ([Msg.increase (23/2)],
        { tracking := true, last_notification_price := 11, alerts := [] }) ∧
    threshold_check (59/5) { tracking := true, last_notification_price := 11, alerts := [] } =
      ([], { tracking := true, last_notification_price := 11, alerts := [] }) := by
  have hf1 : (⌊(23/2 : ℚ)⌋ : ℤ) = 11 := by norm_num
  have hf2 : (⌊(59/5 : ℚ)⌋ : ℤ) = 11 := by norm_num
  constructor
  · have h := (threshold_check_spec
      { tracking := true, last_notification_price := 10, alerts := [] }
      10 (23/2) rfl rfl (by norm_num)).1 (by rw [hf1]; norm_num)
    rw [h, hf1]
    norm_num
  · exact (threshold_check_spec
      { tracking := true, last_notification_price := 11, alerts := [] }
      11 (59/5) rfl rfl (by norm_num)).2 (by rw [hf2]; omega)

/-- C5: `start_price_tracking` returns false and leaves the registry
unchanged when the user is already present; returns false and creates no
record when the user is absent and the fetch fails; and when the user is
absent and the fetch returns a nonnegative price it returns true and
creates a record with tracking on, empty alerts, and last-notified price
equal to the floor of the fetched price. -/
theorem start_price_tracking_spec (fetch : Option ℚ) (reg : Registry) (user_id : ℤ) :
    ((dictLookup reg user_id).isSome = true →
      start_price_tracking fetch reg user_id none = (false, reg)) ∧
    (dictLookup reg user_id = none → fetch = none →
      start_price_tracking fetch reg user_id none = (false, reg)) ∧
    (∀ cp : ℚ, dictLookup reg user_id = none → fetch = some cp → 0 ≤ cp →
      start_price_tracking fetch reg user_id none =
        (true, dictInsert reg user_id
          { tracking := true, last_notification_price := ((⌊cp⌋ : ℤ) : ℚ), alerts := [] }) ∧
      dictLookup (start_price_tracking fetch reg user_id none).2 user_id =
        some { tracking := true, last_notification_price := ((⌊cp⌋ : ℤ) : ℚ), alerts := [] }) := by
  refine ⟨?_, ?_, ?_⟩
  · intro hsome
    unfold start_price_tracking
    rw [if_pos hsome]
  · intro hnone hf
    subst hf
    unfold start_price_tracking
    rw [hnone]
    rfl
  · intro cp hnone hf hcp
    subst hf
    have hpy : pyInt cp = ⌊cp⌋ := if_pos hcp
    have heq : start_price_tracking (some cp) reg user_id none =
        (true, dictInsert reg user_id
          { tracking := true, last_notification_price := ((⌊cp⌋ : ℤ) : ℚ), alerts := [] }) := by
      unfold start_price_tracking
      rw [hnone]
      simp [hpy]
    refine ⟨heq, ?_⟩
    rw [heq]
    exact dictLookup_dictInsert_self reg user_id _

/-- Witness for C5: an absent user with a successful fetch of 10.5 is
registered with last-notified price 10, tracking on and no alerts. -/
theorem start_price_tracking_spec_witness :
    start_price_tracking (some (21/2)) [] 1 none =
      (true, [(1, { tracking := true, last_notification_price := 10, alerts := [] })]) := by
  have h := ((start_price_tracking_spec (some (21/2)) [] 1).2.2 (21/2)
    rfl rfl (by norm_num)).1
  rw [h]
  have hfl : (⌊(21/2 : ℚ)⌋ : ℤ) = 10 := by norm_num
  norm_num [dictInsert, hfl]

/-- C8: on a registry with unique keys (every Python dict), when the user is
present `stop_price_tracking` returns true and removes the whole record
(the user's key no longer resolves, all other users' records are
untouched); when the user is absent it returns false and the registry is
exactly unchanged. -/
theorem stop_price_tracking_spec (reg : Registry) (user_id : ℤ)
    (hnd : keysNodup reg) :
    (dictLookup reg user_id = none → stop_price_tracking reg user_id = (false, reg)) ∧
    (∀ st : UserState, dictLookup reg user_id = some st →
      (stop_price_tracking reg user_id).1 = true ∧
      (stop_price_tracking reg user_id).2 = dictErase reg user_id ∧
      dictLookup (stop_price_tracking reg user_id).2 user_id = none ∧
      (∀ v : ℤ, v ≠ user_id →
        dictLookup (stop_price_tracking reg user_id).2 v = dictLookup reg v)) := by
  constructor
  · intro hnone
    unfold stop_price_tracking
    rw [hnone]
  · intro st hst
    have hsnd : (stop_price_tracking reg user_id).2 = dictErase reg user_id := by
      unfold stop_price_tracking
      rw [hst]
      exact dictErase_dictInsert reg user_id _
    refine ⟨by unfold stop_price_tracking; rw [hst], hsnd, ?_, ?_⟩
    · rw [hsnd]
      exact dictLookup_dictErase_self reg user_id hnd
    · intro v hv
      rw [hsnd]
      exact dictLookup_dictErase_ne reg user_id v hv

/-- Witness for C8: a singleton registry with user 1 (key-unique); stopping
user 1 empties it, and user 2's (absent) record is unaffected. -/
theorem stop_price_tracking_spec_witness :
    stop_price_tracking
      [(1, { tracking := true, last_notification_price := 40,
             alerts := [{ target := 50, triggered := false }] })] 1 = (true, []) := by
  have h := (stop_price_tracking_spec
    [(1, { tracking := true, last_notification_price := 40,
           alerts := [{ target := 50, triggered := false }] })] 1 (by simp [keysNodup])).2
    { tracking := true, last_notification_price := 40,
      alerts := [{ target := 50, triggered := false }] } rfl
  have h2 := h.2.1
  rw [show dictErase
      [(1, { tracking := true, last_notification_price := 40,
             alerts := [{ target := 50, triggered := false }] })] 1 = [] from rfl] at h2
  exact Prod.ext h.1 h2

/-- C4: for a user with a record, `check_price_alerts` emits exactly one
target-reached message per not-yet-triggered alert whose target is at most
the current price, in registration order (the filtered sublist keeps the
alert list's order); it marks exactly those alerts triggered and changes
nothing else in the record; re-running it at the same price emits no
message and leaves the registry fixed (idempotent once triggered); and a
triggered alert is never modified again, so `triggered` never reverts. -/
theorem check_price_alerts_spec (reg : Registry) (user_id : ℤ)
    (current_price : ℚ) (st : UserState)
    (hst : dictLookup reg user_id = some st) :
    (check_price_alerts reg user_id current_price).1 =
      (st.alerts.filter (alertFires current_price)).map
        (fun a => Msg.targetReached current_price a.target) ∧
    (check_price_alerts reg user_id current_price).2 =
      dictInsert reg user_id
        { st with alerts := st.alerts.map (markTriggered current_price) } ∧
    check_price_alerts (check_price_alerts reg user_id current_price).2
        user_id current_price =
      ([], (check_price_alerts reg user_id current_price).2) ∧
    (∀ a : Alert, a.triggered = true → markTriggered current_price a = a) := by
  have heq := check_price_alerts_of_lookup reg user_id current_price st hst
  have hfst : (check_price_alerts reg user_id current_price).1 =
      (st.alerts.filter (alertFires current_price)).map
        (fun a => Msg.targetReached current_price a.target) := by
    rw [heq]
    exact run_alerts_fst current_price st.alerts
  have hsnd : (check_price_alerts reg user_id current_price).2 =
      dictInsert reg user_id
        { st with alerts := st.alerts.map (markTriggered current_price) } := by
    rw [heq, run_alerts_snd current_price st.alerts]
  refine ⟨hfst, hsnd, ?_, fun a h => markTriggered_mono current_price a h⟩
  have hlk : dictLookup (check_price_alerts reg user_id current_price).2 user_id =
      some { st with alerts := st.alerts.map (markTriggered current_price) } := by
    rw [hsnd]
    exact dictLookup_dictInsert_self reg user_id _
  have heq2 := check_price_alerts_of_lookup
    (check_price_alerts reg user_id current_price).2 user_id current_price _ hlk
  have hfires : ∀ a ∈ st.alerts.map (markTriggered current_price),
      ¬ alertFires current_price a = true := by
    intro a ha
    rcases List.mem_map.mp ha with ⟨b, _, rfl⟩
    rw [alertFires_markTriggered]
    exact Bool.false_ne_true
  rw [heq2, run_alerts_fst, run_alerts_snd]
  rw [List.filter_eq_nil_iff.mpr hfires, List.map_map]
  have hmm : (markTriggered current_price) ∘ (markTriggered current_price)
      = markTriggered current_price := by
    funext a
    exact markTriggered_idem current_price a
  rw [hmm, hsnd, dictInsert_dictInsert]
  rfl

/-- Witness for C4: user 1 has three alerts (targets 50, 60, 45; the last
already triggered); at price 50 exactly the first and none other fires
(the 45-target alert is already triggered, the 60-target not reached), and
re-running at price 50 emits nothing. -/
theorem check_price_alerts_spec_witness :
    (check_price_alerts
      [(1, { tracking := true, last_notification_price := 40,
             alerts := [{ target := 50, triggered := false },
                        { target := 60, triggered := false },
                        { target := 45, triggered := true }] })] 1 50).1 =
      [Msg.targetReached 50 50] ∧
    (check_price_alerts
      [(1, { tracking := true, last_notification_price := 40,
             alerts := [{ target := 50, triggered := false },
                        { target := 60, triggered := false },
                        { target := 45, triggered := true }] })] 1 50).2 =
      [(1, { tracking := true, last_notification_price := 40,
             alerts := [{ target := 50, triggered := true },
                        { target := 60, triggered := false },
                        { target := 45, triggered := true }] })] := by
  have h := check_price_alerts_spec
    [(1, { tracking := true, last_notification_price := 40,
           alerts := [{ target := 50, triggered := false },
                      { target := 60, triggered := false },
                      { target := 45, triggered := true }] })] 1 50
    { tracking := true, last_notification_price := 40,
      alerts := [{ target := 50, triggered := false },
                 { target := 60, triggered := false },
                 { target := 45, triggered := true }] } rfl
  constructor
  · rw [h.1]
    norm_num [alertFires]
  · rw [h.2.1]
    norm_num [markTriggered, alertFires, dictInsert]

/-- C10: `check_price_alerts` never touches other users' records and never
changes the given user's tracking flag or last-notified price; the user's
alert list keeps its length, order and targets (``Forall₂`` relates old and
new alerts positionally), and a triggered flag can only go from false to
true, never back. When the user is absent the registry is unchanged. -/
theorem check_price_alerts_frame (reg : Registry) (user_id : ℤ) (current_price : ℚ) :
    (∀ v : ℤ, v ≠ user_id →
      dictLookup (check_price_alerts reg user_id current_price).2 v = dictLookup reg v) ∧
    (dictLookup reg user_id = none →
      (check_price_alerts reg user_id current_price).2 = reg) ∧
    (∀ st : UserState, dictLookup reg user_id = some st →
      ∃ st' : UserState,
        dictLookup (check_price_alerts reg user_id current_price).2 user_id = some st' ∧
        st'.tracking = st.tracking ∧
        st'.last_notification_price = st.last_notification_price ∧
        st'.alerts.length = st.alerts.length ∧
        List.Forall₂ (fun a a' : Alert =>
          a'.target = a.target ∧ (a.triggered = true → a'.triggered = true))
          st.alerts st'.alerts) := by
  rcases hlk : dictLookup reg user_id with _ | st
  · have heq : check_price_alerts reg user_id current_price = ([], reg) := by
      unfold check_price_alerts
      rw [hlk]
    refine ⟨?_, fun _ => by rw [heq], ?_⟩
    · intro v _
      rw [heq]
    · intro st hst
      exact Option.noConfusion hst
  · have heq := check_price_alerts_of_lookup reg user_id current_price st hlk
    refine ⟨?_, ?_, ?_⟩
    · intro v hv
      rw [heq]
      exact dictLookup_dictInsert_ne reg user_id _ v hv
    · intro hnone
      exact Option.noConfusion hnone
    · intro st0 hst0
      injection hst0 with hst0
      subst hst0
      refine ⟨{ st with alerts := (run_alerts current_price st.alerts).2 }, ?_, rfl, rfl, ?_, ?_⟩
      · rw [heq]
        exact dictLookup_dictInsert_self reg user_id _
      · show (run_alerts current_price st.alerts).2.length = st.alerts.length
        rw [run_alerts_snd, List.length_map]
      · show List.Forall₂ _ st.alerts (run_alerts current_price st.alerts).2
        rw [run_alerts_snd]
        refine forall₂_map_self (markTriggered current_price) st.alerts ?_
        intro a
        refine ⟨markTriggered_target current_price a, ?_⟩
        intro h
        rw [markTriggered_mono current_price a h]
        exact h

/-- Witness for C10 at a concrete registry with two users: evaluating user 1
at price 50 leaves user 2's record untouched, and user 1 keeps its flag,
last-notified price and alert targets. -/
theorem check_price_alerts_frame_witness :
    dictLookup (check_price_alerts
      [(1, { tracking := true, last_notification_price := 40,
             alerts := [{ target := 50, triggered := false }] }),
       (2, { tracking := false, last_notification_price := 7, alerts := [] })] 1 50).2 2 =
      some { tracking := false, last_notification_price := 7, alerts := [] } ∧
    ∃ st' : UserState,
      dictLookup (check_price_alerts
        [(1, { tracking := true, last_notification_price := 40,
               alerts := [{ target := 50, triggered := false }] }),
         (2, { tracking := false, last_notification_price := 7, alerts := [] })] 1 50).2 1 =
        some st' ∧
      st'.tracking = true ∧ st'.last_notification_price = 40 ∧
      st'.alerts.length = 1 := by
  have h := check_price_alerts_frame
    [(1, { tracking := true, last_notification_price := 40,
           alerts := [{ target := 50, triggered := false }] }),
     (2, { tracking := false, last_notification_price := 7, alerts := [] })] 1 50
  constructor
  · rw [h.1 2 (by norm_num)]
    rfl
  · obtain ⟨st', hlk, htr, hlnp, hlen, _⟩ := h.2.2
      { tracking := true, last_notification_price := 40,
        alerts := [{ target := 50, triggered := false }] } rfl
    exact ⟨st', hlk, htr, hlnp, hlen⟩

/-- C6: `get_price_trend` reports insufficient data for fewer than 2
samples; otherwise (provided the oldest retained sample is nonzero, so the
percentage change is defined) it classifies the change of the newest
retained sample against the oldest retained one: above +5% strong up, in
(0%, 5%] slight up, below −5% strong down, in [−5%, 0%) slight down, and
exactly 0% stable. -/
theorem get_price_trend_spec (price_history : List ℚ) :
    (price_history.length < 2 →
      get_price_trend price_history = .insufficientData) ∧
    (2 ≤ price_history.length → price_history.headD 0 ≠ 0 →
      ((get_price_trend price_history = .strongUp ↔
        5 < (price_history.getLastD 0 - price_history.headD 0) / price_history.headD 0 * 100) ∧
      (get_price_trend price_history = .slightUp ↔
        0 < (price_history.getLastD 0 - price_history.headD 0) / price_history.headD 0 * 100 ∧
        (price_history.getLastD 0 - price_history.headD 0) / price_history.headD 0 * 100 ≤ 5) ∧
      (get_price_trend price_history = .strongDown ↔
        (price_history.getLastD 0 - price_history.headD 0) / price_history.headD 0 * 100 < -5) ∧
      (get_price_trend price_history = .slightDown ↔
        -5 ≤ (price_history.getLastD 0 - price_history.headD 0) / price_history.headD 0 * 100 ∧
        (price_history.getLastD 0 - price_history.headD 0) / price_history.headD 0 * 100 < 0) ∧
      (get_price_trend price_history = .stable ↔
        (price_history.getLastD 0 - price_history.headD 0) / price_history.headD 0 * 100 = 0))) := by
  constructor
  · intro hlt
    unfold get_price_trend
    rw [if_pos hlt]
  · intro hlen _
    unfold get_price_trend
    rw [if_neg (by omega)]
    dsimp only
    set c : ℚ :=
      (price_history.getLastD 0 - price_history.headD 0) / price_history.headD 0 * 100 with hc
    split_ifs with h1 h2 h3 h4 <;>
      refine ⟨?_, ?_, ?_, ?_, ?_⟩ <;>
      constructor <;>
      intro hx <;>
      first
        | rfl
        | linarith
        | (exact ⟨by linarith, by linarith⟩)
        | (exfalso; obtain ⟨hx1, hx2⟩ := hx; linarith)
        | (exfalso; linarith)
        | (simp at hx)

/-- Witness for C6: two samples [100, 110] are a +10% change, classified as
a strong upward trend. -/
theorem get_price_trend_spec_witness :
    get_price_trend [100, 110] = Trend.strongUp := by
  have h := ((get_price_trend_spec [100, 110]).2 (by norm_num) (by norm_num)).1
  rw [h]
  norm_num

/-- C7: `get_price_stats` reports no data exactly on the empty history; on a
non-empty history it returns the latest retained sample as current, the
maximum as high, the minimum as low, and the arithmetic mean as average;
in particular for the poll loop fed [100, 95, 90, 85] it returns
current=85, high=100, low=85, average=92.5. -/
theorem get_price_stats_spec (price_history : List ℚ) :
    (price_history = [] → get_price_stats price_history = none) ∧
    (price_history ≠ [] → ∃ s : PriceStats,
      get_price_stats price_history = some s ∧
      s.current = price_history.getLastD 0 ∧
      s.high ∈ price_history ∧ (∀ x ∈ price_history, x ≤ s.high) ∧
      s.low ∈ price_history ∧ (∀ x ∈ price_history, s.low ≤ x) ∧
      s.average * price_history.length = price_history.sum) ∧
    get_price_stats (pollHistory [100, 95, 90, 85]) =
      some { current := 85, high := 100, low := 85, average := 185/2 } := by
  refine ⟨?_, ?_, ?_⟩
  · intro h
    unfold get_price_stats
    rw [if_pos h]
  · intro h
    have heq : get_price_stats price_history = some
        { current := price_history.getLastD 0
          high := pyMax price_history
          low := pyMin price_history
          average := price_history.sum / price_history.length } := by
      unfold get_price_stats
      rw [if_neg h]
    have hlen : ((price_history.length : ℚ)) ≠ 0 :=
      Nat.cast_ne_zero.mpr (fun h0 => h (List.length_eq_zero.mp h0))
    exact ⟨_, heq, rfl, (pyMax_spec _ h).1, (pyMax_spec _ h).2,
      (pyMin_spec _ h).1, (pyMin_spec _ h).2, div_mul_cancel₀ _ hlen⟩
  · have hph : pollHistory [100, 95, 90, 85] = ([100, 95, 90, 85] : List ℚ) := by
      norm_num [pollHistory, appendPrice]
    rw [hph]
    unfold get_price_stats
    rw [if_neg (by simp)]
    norm_num [pyMax, pyMin, max_def, min_def, List.getLastD]

/-- Witness for C7: the non-empty case instantiated at [100, 95, 90, 85]. -/
theorem get_price_stats_spec_witness :
    (([100, 95, 90, 85] : List ℚ) ≠ []) ∧
    ∃ s : PriceStats, get_price_stats [100, 95, 90, 85] = some s ∧
      s.current = ([100, 95, 90, 85] : List ℚ).getLastD 0 ∧
      s.high ∈ ([100, 95, 90, 85] : List ℚ) ∧
      (∀ x ∈ ([100, 95, 90, 85] : List ℚ), x ≤ s.high) ∧
      s.low ∈ ([100, 95, 90, 85] : List ℚ) ∧
      (∀ x ∈ ([100, 95, 90, 85] : List ℚ), s.low ≤ x) ∧
      s.average * (([100, 95, 90, 85] : List ℚ)).length = ([100, 95, 90, 85] : List ℚ).sum :=
  ⟨by simp, (get_price_stats_spec [100, 95, 90, 85]).2.1 (by simp)⟩

end WCBot
